import Mathlib

/-!
A shallow embedding of the transaction classification / import /
aggregation engine of the `Investment_Analysis` repository
(`csv_financial_tracker.py`, `import_csv_transactions.py`,
`investment_visualizer.py`), together with theorems settling the
specification claims about it.

External effects (Google Sheets I/O, printing, sleeping, matplotlib) are
modelled by explicit parameters and return values; all data-level logic is
translated directly from the Python source.
-/

/-! ### Python string primitives

The Python sources operate on `str` values with `in`, `.lower()`,
`.strip()`, `.split(',')` and `.replace(x, '')`.  All repository data is
ASCII, so these are modelled as structurally recursive functions on
`List Char` / `String`.
-/

/-- Does `needle` occur at the head of `haystack`? (helper for Python `in`). -/
def matchAt : List Char → List Char → Bool
  | [], _ => true
  | _ :: _, [] => false
  | a :: as, b :: bs => a == b && matchAt as bs

/-- Python's substring test `needle in haystack` on character lists. -/
def occursIn (needle : List Char) : List Char → Bool
  | [] => matchAt needle []
  | c :: cs => matchAt needle (c :: cs) || occursIn needle cs

/-- Python `needle in haystack` on strings. -/
def pyContains (needle haystack : String) : Bool :=
  occursIn needle.data haystack.data

/-- Python `s.lower()` (ASCII case folding; all repository data is ASCII). -/
def pyLower (s : String) : String :=
  (s.data.map Char.toLower).asString

/-- Python `s.strip()`. -/
def pyStrip (s : String) : String :=
  (((s.data.dropWhile Char.isWhitespace).reverse.dropWhile Char.isWhitespace).reverse).asString

/-- Python `s.split(',')` on character lists: split at every comma; the
split of `""` is `[""]`. -/
def splitCommaAux : List Char → List (List Char)
  | [] => [[]]
  | c :: cs =>
    if c == ',' then [] :: splitCommaAux cs
    else
      match splitCommaAux cs with
      | [] => [[c]]
      | p :: ps => (c :: p) :: ps

/-- Python `s.split(',')` on strings. -/
def pySplitComma (s : String) : List String :=
  (splitCommaAux s.data).map List.asString

/-- Python `s.replace(c, '')` for a one-character pattern. -/
def pyRemoveChar (c : Char) (s : String) : String :=
  (s.data.filter (fun x => x != c)).asString

/-- Value of a list of decimal digit characters. -/
def digitsToNat (l : List Char) : Nat :=
  l.foldl (fun a c => 10 * a + (c.toNat - 48)) 0

/-- Unsigned part of a decimal literal: digits with an optional fractional
part, at least one digit in total. -/
def parseUnsigned (cs : List Char) : Option ℚ :=
  match cs.span Char.isDigit with
  | (intPart, []) =>
    if intPart.isEmpty then none else some (digitsToNat intPart : ℚ)
  | (intPart, '.' :: fracPart) =>
    if fracPart.all Char.isDigit && !(intPart.isEmpty && fracPart.isEmpty) then
      some ((digitsToNat intPart : ℚ) + (digitsToNat fracPart : ℚ) / (10 : ℚ) ^ fracPart.length)
    else none
  | _ => none

/-- Decimal-literal parsing, modelling Python `float(...)` on the numeric
strings this repository feeds it (optional surrounding whitespace and sign,
digits, optional fractional part — no exponents or specials occur in the
data).  `none` exactly when Python's `float` raises `ValueError` on such a
string. -/
def parseFloat (s : String) : Option ℚ :=
  match (pyStrip s).data with
  | '-' :: rest => (parseUnsigned rest).map Neg.neg
  | '+' :: rest => parseUnsigned rest
  | cs => parseUnsigned cs

/-! ### Transaction classifier (`csv_financial_tracker.py` lines 189-220) -/

/-- One row of the Categories worksheet: (category, comma-joined keyword cell). -/
abbrev CategoryRow := String × String

/-- `[k.strip().lower() for k in cell.split(',')]` (line 202). -/
def parseKeywords (cell : String) : List String :=
  (pySplitComma cell).map (fun k => pyLower (pyStrip k))

/-- The keyword loop of `categorize_transaction` for one rule row
(lines 205-207): `if keyword and (keyword in description or keyword in
merchant_name)`.  `d` and `m` are the already lower-cased description and
merchant name. -/
def rowMatches (d m : String) (cell : String) : Bool :=
  (parseKeywords cell).any fun k => k != "" && (pyContains k d || pyContains k m)

/-- The rule-table scan of `categorize_transaction` (lines 197-207): first
matching row wins. -/
def scanRules (d m : String) : List CategoryRow → Option String
  | [] => none
  | (cat, cell) :: rest => if rowMatches d m cell then some cat else scanRules d m rest

/-- `FinancialTracker.categorize_transaction` (lines 189-220), on the normal
path where the Categories worksheet supplies the rule rows; lines 215-220
are the Income / Other fallback. -/
def categorize_transaction (rules : List CategoryRow) (description merchant_name : String) : String :=
  let d := pyLower description
  let m := pyLower merchant_name
  match scanRules d m rules with
  | some cat => cat
  | none =>
    if pyContains "income" d || pyContains "deposit" d || pyContains "payroll" d then "Income"
    else "Other"

/-- The Categories worksheet rows seeded by `create_financial_spreadsheet`
(lines 86-88: the category name and `", ".join(keywords)` of the built-in
table). -/
def seededCategoryRows : List CategoryRow :=
  [("Buy", "Purchase, Accumulate, Long position, Strategic acquisition, Initial investment"),
   ("Sell", "Sell, Liquidate, Close position, Profit-taking, Strategic divestment"),
   ("Dividend", "Dividend, payout, income"),
   ("Fee", "Management fee, Administrative expense, Trading commission, Research, audit, Performance fee"),
   ("Capital", "Initial fund capital, deployment"),
   ("Other", "")]

/-- The closed category enumeration of the specification. -/
def sevenCategories : List String :=
  ["Buy", "Sell", "Dividend", "Fee", "Capital", "Income", "Other"]

/-- Modelled from the spec (claim C2's words): return the category of the
first rule row having some keyword that occurs case-insensitively as a
substring of the description or the merchant name; otherwise the
Income / Other fallback.  Unlike the code, no nonemptiness guard on the
keyword. -/
def specCategorize (rules : List CategoryRow) (description merchant_name : String) : String :=
  let d := pyLower description
  let m := pyLower merchant_name
  match rules.find? (fun rc => (parseKeywords rc.2).any fun k => pyContains k d || pyContains k m) with
  | some rc => rc.1
  | none =>
    if pyContains "income" d || pyContains "deposit" d || pyContains "payroll" d then "Income"
    else "Other"

/-- Modelled from the spec, amended: as `specCategorize`, but a keyword only
matches when it is nonempty. -/
def specCategorizeNonempty (rules : List CategoryRow) (description merchant_name : String) : String :=
  let d := pyLower description
  let m := pyLower merchant_name
  match rules.find? (fun rc => (parseKeywords rc.2).any fun k => k != "" && (pyContains k d || pyContains k m)) with
  | some rc => rc.1
  | none =>
    if pyContains "income" d || pyContains "deposit" d || pyContains "payroll" d then "Income"
    else "Other"


/-! ### The sign-aware classifier (`investment_visualizer.py` lines 28-44) -/

/-- Keyword families of `identify_transaction_type`. -/
def buyWords : List String :=
  ["purchase", "accumulate", "long position", "acquisition", "investment in"]

def sellWords : List String :=
  ["sell", "liquidate", "close position", "divestment", "profit-taking"]

def feeWords : List String :=
  ["fee", "expense", "commission", "research", "audit"]

/-- `identify_transaction_type(row)` with `desc = row['Description'].lower()`
and `amount = float(row['Amount'])`. -/
def identify_transaction_type (description : String) (amount : ℚ) : String :=
  let desc := pyLower description
  if pyContains "initial fund capital" desc then "Initial Capital"
  else if decide (amount < 0) && buyWords.any (fun w => pyContains w desc) then "Buy"
  else if decide (0 < amount) && sellWords.any (fun w => pyContains w desc) then "Sell"
  else if pyContains "dividend" desc then "Dividend"
  else if decide (amount < 0) && feeWords.any (fun w => pyContains w desc) then "Fee"
  else "Other"

/-! ### The CSV import of `FinancialTracker.import_csv_transactions`
(`csv_financial_tracker.py` lines 103-187)

A raw CSV record is a Python dict; absent keys are modelled with `Option`.
The worksheet is modelled by the list of already-persisted transaction ids
(`existing`, column 6 of the Transactions sheet) and by the list of rows
the run appends.  `datetime.now()` is modelled as one ingestion epoch
second `now` for the run, and `strptime`-based date normalisation (which no
claim depends on) as a caller-supplied total function `fmtDate`. -/

structure RawRecord where
  dateField : Option String
  descriptionField : Option String
  amountField : Option String
  accountField : Option String
  merchantField : Option String
  txidField : Option String
  pendingField : Option String
deriving DecidableEq

/-- A row appended to the Transactions worksheet (lines 163-172). -/
structure SheetRow where
  date : String
  description : String
  amount : ℚ
  category : String
  account : String
  txid : String
  pending : String
  merchant : String
deriving DecidableEq

/-- Amount normalisation (lines 145-150): `float(t.get('Amount', 0))`, and on
`ValueError` retry after stripping `'$'` and `','`.  `none` means the retry
also raises, which the surrounding code does not catch. -/
def amountOf (r : RawRecord) : Option ℚ :=
  match r.amountField with
  | none => some 0
  | some s =>
    match parseFloat s with
    | some q => some q
    | none => parseFloat (pyRemoveChar ',' (pyRemoveChar '$' s))

/-- The synthesized transaction id `f"csv_{seq}_{now}"` (line 169 and
`import_csv_transactions.py` line 106). -/
def synthId (seq now : Nat) : String :=
  "csv_" ++ Nat.repr seq ++ "_" ++ Nat.repr now

/-- The per-record loop of `import_csv_transactions` (lines 127-175).
State: `n` is `new_rows`.  Result: the rows appended to the worksheet, and
`some` final `new_rows` on normal completion or `none` when an uncaught
amount `ValueError` aborts the loop (the outer `except` of line 185). -/
def importLoop (rules : List CategoryRow) (fmtDate : String → String)
    (existing : List String) (now : Nat) : Nat → List RawRecord → List SheetRow × Option Nat
  | n, [] => ([], some n)
  | n, r :: rs =>
    let tid := r.txidField.getD ""
    if tid ∈ existing then importLoop rules fmtDate existing now n rs
    else
      match amountOf r with
      | none => ([], none)
      | some a =>
        let row : SheetRow :=
          { date := fmtDate (r.dateField.getD "")
            description := r.descriptionField.getD ""
            amount := a
            category := categorize_transaction rules (r.descriptionField.getD "") (r.merchantField.getD "")
            account := r.accountField.getD "Unknown"
            txid := if tid = "" then synthId n now else tid
            pending := r.pendingField.getD "No"
            merchant := r.merchantField.getD "" }
        let rest := importLoop rules fmtDate existing now (n + 1) rs
        (row :: rest.1, rest.2)

/-- `FinancialTracker.import_csv_transactions`: the appended rows together
with the returned count (`new_rows`, or `0` when the run aborted in the
outer `except`). -/
def import_csv_transactions (rules : List CategoryRow) (fmtDate : String → String)
    (existing : List String) (now : Nat) (records : List RawRecord) : List SheetRow × Nat :=
  match importLoop rules fmtDate existing now 0 records with
  | (rows, some n) => (rows, n)
  | (rows, none) => (rows, 0)

/-! ### `import_with_batching` (`import_csv_transactions.py`) -/

/-- The deduplication filter (line 53): keep the records whose
`t.get('TransactionID', '')` is not among the existing ids. -/
def filterNewTransactions (existing : List String) (transactions : List RawRecord) : List RawRecord :=
  transactions.filter fun t => !(existing.contains (t.txidField.getD ""))

/-- `chunksAux b xs i = (xs.take i, batchesOf b (xs.drop i))`: helper giving
a structurally recursive form of the Python batch slicing. -/
def chunksAux (b : Nat) : List α → Nat → List α × List (List α)
  | [], _ => ([], [])
  | x :: xs, 0 =>
    let p := chunksAux b xs (b - 1)
    ([], (x :: p.1) :: p.2)
  | x :: xs, i + 1 =>
    let p := chunksAux b xs i
    (x :: p.1, p.2)

/-- The batch partition `[l[i:i+b] for i in range(0, len(l), b)]`
(line 69 and `csv_financial_tracker.py` line 402). -/
def batchesOf (b : Nat) : List α → List (List α)
  | [] => []
  | x :: xs =>
    let p := chunksAux b xs (b - 1)
    (x :: p.1) :: p.2

/-- Row construction for one record of a batch (lines 78-120): `i` is the
batch index, and the transaction id is `t.get('TransactionID', synthesized)`
(line 106) — the default is used only when the key is absent.  `none` means
the amount retry raised, which nothing in this function catches. -/
def rowForBatch (rules : List CategoryRow) (fmtDate : String → String)
    (i now : Nat) (t : RawRecord) : Option SheetRow :=
  match amountOf t with
  | none => none
  | some a =>
    some
      { date := fmtDate (t.dateField.getD "")
        description := t.descriptionField.getD ""
        amount := a
        category := categorize_transaction rules (t.descriptionField.getD "") (t.merchantField.getD "")
        account := t.accountField.getD "Unknown"
        txid := t.txidField.getD (synthId i now)
        pending := t.pendingField.getD "No"
        merchant := t.merchantField.getD "" }

/-- All rows of one batch; `none` when some record's amount aborts the run. -/
def buildBatchRows (rules : List CategoryRow) (fmtDate : String → String)
    (i now : Nat) : List RawRecord → Option (List SheetRow)
  | [] => some []
  | t :: ts =>
    match rowForBatch rules fmtDate i now t with
    | none => none
    | some row => (buildBatchRows rules fmtDate i now ts).map (row :: ·)

/-- The write loop of `import_with_batching` (lines 73, 122-144): each
group's `append_rows` call is inside `try/except`, so a failing group
(`fails i = true`) is logged and skipped and the loop continues.  Result:
the groups actually appended, in order. -/
def importBatchesApply (fails : Nat → Bool) : Nat → List (List α) → List (List α)
  | _, [] => []
  | i, g :: gs =>
    if fails i then importBatchesApply fails (i + 1) gs
    else g :: importBatchesApply fails (i + 1) gs

/-- The batched write loop of `FinancialTracker.update_dashboard`
(`csv_financial_tracker.py` lines 406-418): `batch_update` is not guarded,
so a failing group raises out of the loop and the remaining groups are
never applied.  Result: the groups actually applied. -/
def dashboardBatchesApply (fails : Nat → Bool) : Nat → List (List α) → List (List α)
  | _, [] => []
  | i, g :: gs =>
    if fails i then []
    else g :: dashboardBatchesApply fails (i + 1) gs

/-- Events of a scheduler run: one atomic group write, or a pacing sleep. -/
inductive WriteEvent (α : Type) where
  | write (g : List α) : WriteEvent α
  | sleep : WriteEvent α
deriving DecidableEq

/-- The event trace of the batch loop (lines 73-140): write each group in
order and sleep after it unless it is the last group
(`if i < len(batches) - 1: time.sleep(delay)`). -/
def schedLoop (total : Nat) : Nat → List (List α) → List (WriteEvent α)
  | _, [] => []
  | i, g :: gs =>
    WriteEvent.write g ::
      (if i < total - 1 then WriteEvent.sleep :: schedLoop total (i + 1) gs
       else schedLoop total (i + 1) gs)

/-- The full scheduler trace of `import_with_batching` for a list of writes. -/
def schedTrace (b : Nat) (l : List α) : List (WriteEvent α) :=
  schedLoop (batchesOf b l).length 0 (batchesOf b l)


/-! ### Aggregation (`investment_visualizer.py` lines 139-144 and 174-179,
`csv_financial_tracker.py` lines 329-335)

A classified transaction is reduced to the fields the monthly aggregations
read: its `YYYY-MM` month string, its category / transaction-type label,
and its amount.  pandas `groupby` and `pivot_table` sort their string keys
ascending; Python compares strings lexicographically by code point, which
`lexLt` models. -/

structure Txn where
  month : String
  category : String
  amount : ℚ
deriving DecidableEq

/-- Python string `<`: lexicographic comparison by code point. -/
def lexLt : List Char → List Char → Bool
  | _, [] => false
  | [], _ :: _ => true
  | a :: as, b :: bs =>
    if a.toNat = b.toNat then lexLt as bs else decide (a.toNat < b.toNat)

/-- `<` on the month strings. -/
def monthLt (a b : String) : Bool := lexLt a.data b.data

/-- `≤` on the month strings. -/
def monthLe (a b : String) : Bool := monthLt a b || a == b

/-- Sorted insertion for the ascending key sort of pandas `groupby`. -/
def insertMonth (m : String) : List String → List String
  | [] => [m]
  | x :: xs => if monthLe m x then m :: x :: xs else x :: insertMonth m xs

/-- Ascending sort of a list of key strings (pandas sorts group keys). -/
def sortKeys : List String → List String
  | [] => []
  | x :: xs => insertMonth x (sortKeys xs)

/-- The distinct months present in the data, ascending. -/
def monthsPresent (txs : List Txn) : List String :=
  sortKeys (txs.map Txn.month).dedup

/-- The distinct category labels present in the data, ascending. -/
def catsPresent (txs : List Txn) : List String :=
  sortKeys (txs.map Txn.category).dedup

/-- `df_sorted.groupby('Month')['Amount'].sum()` for one month. -/
def monthSum (txs : List Txn) (m : String) : ℚ :=
  ((txs.filter fun t => t.month == m).map Txn.amount).sum

/-- Running prefix sums (`cumsum`) over labelled values. -/
def cumsum : ℚ → List (String × ℚ) → List (String × ℚ)
  | _, [] => []
  | acc, (m, v) :: rest => (m, acc + v) :: cumsum (acc + v) rest

/-- The Cumulative Balance table (`investment_visualizer.py` lines 174-179):
month → running sum of the per-month totals, months ascending. -/
def cumulative_balance (txs : List Txn) : List (String × ℚ) :=
  cumsum 0 ((monthsPresent txs).map fun m => (m, monthSum txs m))

/-- One cell of the monthly-by-category pivot. -/
def cellSum (txs : List Txn) (m c : String) : ℚ :=
  ((txs.filter fun t => t.month == m && t.category == c).map Txn.amount).sum

/-- The monthly-by-category pivot table
(`df.pivot_table(index='Month', columns=..., values='Amount',
aggfunc='sum', fill_value=0)`, `csv_financial_tracker.py` lines 329-335 and
`investment_visualizer.py` lines 139-144): one row per month present, one
labelled cell per category present anywhere, absent combinations 0. -/
def monthly_by_category (txs : List Txn) : List (String × List (String × ℚ)) :=
  (monthsPresent txs).map fun m =>
    (m, (catsPresent txs).map fun c => (c, cellSum txs m c))

/-! ### Decimal digits of `Nat.repr`

`synthId` builds transaction ids with `Nat.repr`; injectivity of the
decimal representation is what makes distinct sequence counters give
distinct ids. -/

/-- The decimal digit characters of `n`, most significant first. -/
def decDigits (n : Nat) : List Char :=
  if _h : n < 10 then [Nat.digitChar n]
  else decDigits (n / 10) ++ [Nat.digitChar (n % 10)]
termination_by n
decreasing_by exact Nat.div_lt_self (by omega) (by omega)

theorem toDigitsCore_eq_decDigits :
    ∀ (f n : Nat) (acc : List Char), n < f →
      Nat.toDigitsCore 10 f n acc = decDigits n ++ acc := by
  intro f
  induction f with
  | zero => intro n acc h; omega
  | succ f ih =>
    intro n acc _h
    show (if n / 10 = 0 then Nat.digitChar (n % 10) :: acc
          else Nat.toDigitsCore 10 f (n / 10) (Nat.digitChar (n % 10) :: acc)) = _
    by_cases h10 : n < 10
    · have hz : n / 10 = 0 := by omega
      rw [if_pos hz, decDigits, dif_pos h10, Nat.mod_eq_of_lt h10]
      rfl
    · have hz : ¬ n / 10 = 0 := by omega
      rw [if_neg hz, ih (n / 10) _ (by omega)]
      conv_rhs => rw [decDigits]
      rw [dif_neg h10, List.append_assoc]
      rfl

theorem repr_data_eq_decDigits (n : Nat) : (Nat.repr n).data = decDigits n := by
  show (Nat.toDigitsCore 10 (n + 1) n []).asString.data = decDigits n
  rw [toDigitsCore_eq_decDigits (n + 1) n [] (by omega), List.append_nil]
  rfl

theorem digitsToNat_decDigits (n : Nat) : digitsToNat (decDigits n) = n := by
  induction n using Nat.strong_induction_on with
  | _ n ih =>
    by_cases h : n < 10
    · rw [decDigits, dif_pos h]
      show 10 * 0 + ((Nat.digitChar n).toNat - 48) = n
      have : ∀ d, d < 10 → (Nat.digitChar d).toNat - 48 = d := by decide
      rw [this n h]; omega
    · rw [decDigits, dif_neg h]
      unfold digitsToNat
      rw [List.foldl_append]
      have hdiv := ih (n / 10) (Nat.div_lt_self (by omega) (by omega))
      unfold digitsToNat at hdiv
      rw [hdiv]
      show 10 * (n / 10) + ((Nat.digitChar (n % 10)).toNat - 48) = n
      have : ∀ d, d < 10 → (Nat.digitChar d).toNat - 48 = d := by decide
      rw [this (n % 10) (Nat.mod_lt n (by omega))]
      omega

theorem nat_repr_injective : ∀ {a b : Nat}, Nat.repr a = Nat.repr b → a = b := by
  intro a b h
  have hd : decDigits a = decDigits b := by
    rw [← repr_data_eq_decDigits, ← repr_data_eq_decDigits, h]
  have := digitsToNat_decDigits a
  rw [hd, digitsToNat_decDigits b] at this
  omega

theorem synthId_injective {a b now : Nat} (h : synthId a now = synthId b now) : a = b := by
  unfold synthId at h
  have hdata := congrArg String.data h
  simp only [String.data_append] at hdata
  have h1 := List.append_cancel_right hdata
  have h2 := List.append_cancel_right h1
  have h3 := List.append_cancel_left h2
  exact nat_repr_injective (String.toList_inj.mp h3)

/-! ### Order facts for the lexicographic key order -/

theorem charToNat_inj {a b : Char} (h : a.toNat = b.toNat) : a = b := by
  apply Char.ext
  apply UInt32.ext
  exact h

theorem lexLt_irrefl : ∀ l : List Char, lexLt l l = false := by
  intro l
  induction l with
  | nil => rfl
  | cons c cs ih => simp [lexLt, ih]

theorem lexLt_trans : ∀ {a b c : List Char},
    lexLt a b = true → lexLt b c = true → lexLt a c = true := by
  intro a
  induction a with
  | nil =>
    intro b c hab hbc
    cases b with
    | nil => simp [lexLt] at hab
    | cons y ys =>
      cases c with
      | nil => simp [lexLt] at hbc
      | cons z zs => rfl
  | cons x xs ih =>
    intro b c hab hbc
    cases b with
    | nil => simp [lexLt] at hab
    | cons y ys =>
      cases c with
      | nil => simp [lexLt] at hbc
      | cons z zs =>
        simp only [lexLt] at hab hbc ⊢
        by_cases hxy : x.toNat = y.toNat <;> by_cases hyz : y.toNat = z.toNat
        · rw [if_pos hxy] at hab
          rw [if_pos hyz] at hbc
          rw [if_pos (hxy.trans hyz)]
          exact ih hab hbc
        · rw [if_pos hxy] at hab
          rw [if_neg hyz] at hbc
          have hlt : y.toNat < z.toNat := by simpa using hbc
          rw [if_neg (by omega)]
          simp only [decide_eq_true_eq]
          omega
        · rw [if_neg hxy] at hab
          rw [if_pos hyz] at hbc
          have hlt : x.toNat < y.toNat := by simpa using hab
          rw [if_neg (by omega)]
          simp only [decide_eq_true_eq]
          omega
        · rw [if_neg hxy] at hab
          rw [if_neg hyz] at hbc
          have h1 : x.toNat < y.toNat := by simpa using hab
          have h2 : y.toNat < z.toNat := by simpa using hbc
          rw [if_neg (by omega)]
          simp only [decide_eq_true_eq]
          omega

theorem lexLt_asymm {a b : List Char} (h : lexLt a b = true) : lexLt b a = false := by
  by_contra hcon
  have h2 : lexLt b a = true := by
    cases hba : lexLt b a
    · exact absurd hba hcon
    · rfl
  have := lexLt_trans h h2
  rw [lexLt_irrefl] at this
  exact Bool.false_ne_true this

theorem lexLt_connex : ∀ {a b : List Char},
    lexLt a b = false → lexLt b a = false → a = b := by
  intro a
  induction a with
  | nil =>
    intro b hab _hba
    cases b with
    | nil => rfl
    | cons y ys => simp [lexLt] at hab
  | cons x xs ih =>
    intro b hab hba
    cases b with
    | nil => simp [lexLt] at hba
    | cons y ys =>
      simp only [lexLt] at hab hba
      by_cases hxy : x.toNat = y.toNat
      · rw [if_pos hxy] at hab
        rw [if_pos hxy.symm] at hba
        rw [charToNat_inj hxy, ih hab hba]
      · rw [if_neg hxy] at hab
        rw [if_neg (fun h => hxy h.symm)] at hba
        simp only [decide_eq_false_iff_not] at hab hba
        omega

theorem monthLe_refl (a : String) : monthLe a a = true := by
  simp [monthLe]

theorem monthLe_of_lt {a b : String} (h : monthLt a b = true) : monthLe a b = true := by
  simp [monthLe, h]

theorem monthLt_ne {a b : String} (h : monthLt a b = true) : a ≠ b := by
  intro he
  subst he
  rw [monthLt, lexLt_irrefl] at h
  exact Bool.false_ne_true h

theorem monthLt_asymm {a b : String} (h : monthLt a b = true) : monthLt b a = false :=
  lexLt_asymm h

theorem monthLe_false_of_lt {a b : String} (h : monthLt a b = true) : monthLe b a = false := by
  rw [monthLe, monthLt_asymm h, Bool.false_or]
  exact beq_eq_false_iff_ne.mpr (monthLt_ne h).symm

theorem string_eq_of_not_lt {a b : String} (hab : monthLt a b = false)
    (hba : monthLt b a = false) : a = b :=
  String.toList_inj.mp (lexLt_connex hab hba)

theorem monthLt_of_not_le {a b : String} (h : monthLe a b = false) : monthLt b a = true := by
  rw [monthLe, Bool.or_eq_false_iff] at h
  cases hba : monthLt b a
  · have := string_eq_of_not_lt h.1 hba
    subst this
    simp at h
  · rfl

theorem monthLe_total (a b : String) : monthLe a b = true ∨ monthLe b a = true := by
  cases h : monthLe a b
  · exact Or.inr (monthLe_of_lt (monthLt_of_not_le h))
  · exact Or.inl rfl

theorem monthLe_iff {a b : String} : monthLe a b = true ↔ monthLt a b = true ∨ a = b := by
  constructor
  · intro h
    rw [monthLe, Bool.or_eq_true] at h
    rcases h with h | h
    · exact Or.inl h
    · exact Or.inr (beq_iff_eq.mp h)
  · intro h
    rcases h with h | h
    · exact monthLe_of_lt h
    · subst h; exact monthLe_refl a

theorem monthLe_trans {a b c : String} (hab : monthLe a b = true)
    (hbc : monthLe b c = true) : monthLe a c = true := by
  rcases monthLe_iff.mp hab with h1 | h1
  · rcases monthLe_iff.mp hbc with h2 | h2
    · exact monthLe_of_lt (lexLt_trans h1 h2)
    · subst h2; exact monthLe_of_lt h1
  · subst h1; exact hbc

theorem monthLt_of_le_of_ne {a b : String} (h : monthLe a b = true) (hne : a ≠ b) :
    monthLt a b = true := by
  rcases monthLe_iff.mp h with h | h
  · exact h
  · exact absurd h hne

/-! ### Sorting facts -/

theorem insertMonth_perm (m : String) (l : List String) :
    (insertMonth m l).Perm (m :: l) := by
  induction l with
  | nil => exact List.Perm.refl _
  | cons x xs ih =>
    rw [insertMonth]
    by_cases h : monthLe m x = true
    · rw [if_pos h]
    · rw [if_neg h]
      exact (ih.cons x).trans (List.Perm.swap m x xs)

theorem sortKeys_perm (l : List String) : (sortKeys l).Perm l := by
  induction l with
  | nil => exact List.Perm.refl _
  | cons x xs ih =>
    rw [sortKeys]
    exact (insertMonth_perm x (sortKeys xs)).trans (ih.cons x)

theorem mem_sortKeys {a : String} {l : List String} : a ∈ sortKeys l ↔ a ∈ l :=
  (sortKeys_perm l).mem_iff

theorem nodup_sortKeys {l : List String} (h : l.Nodup) : (sortKeys l).Nodup :=
  (sortKeys_perm l).nodup_iff.mpr h

theorem mem_insertMonth {a m : String} {l : List String} :
    a ∈ insertMonth m l ↔ a = m ∨ a ∈ l := by
  rw [(insertMonth_perm m l).mem_iff, List.mem_cons]

theorem pairwise_insertMonth {m : String} {l : List String}
    (h : l.Pairwise fun a b => monthLe a b = true) :
    (insertMonth m l).Pairwise fun a b => monthLe a b = true := by
  induction l with
  | nil => simp [insertMonth]
  | cons x xs ih =>
    rw [insertMonth]
    rcases List.pairwise_cons.mp h with ⟨hx, hxs⟩
    by_cases hle : monthLe m x = true
    · rw [if_pos hle]
      refine List.pairwise_cons.mpr ⟨?_, h⟩
      intro b hb
      rcases List.mem_cons.mp hb with rfl | hb
      · exact hle
      · exact monthLe_trans hle (hx b hb)
    · rw [if_neg hle]
      have hf : monthLe m x = false := by
        cases hmx : monthLe m x
        · rfl
        · exact absurd hmx hle
      refine List.pairwise_cons.mpr ⟨?_, ih hxs⟩
      intro b hb
      rcases mem_insertMonth.mp hb with rfl | hb
      · exact monthLe_of_lt (monthLt_of_not_le hf)
      · exact hx b hb

theorem pairwise_le_sortKeys (l : List String) :
    (sortKeys l).Pairwise fun a b => monthLe a b = true := by
  induction l with
  | nil => simp [sortKeys]
  | cons x xs ih => exact pairwise_insertMonth ih

theorem pairwise_lt_sortKeys {l : List String} (h : l.Nodup) :
    (sortKeys l).Pairwise fun a b => monthLt a b = true := by
  have h1 := pairwise_le_sortKeys l
  have h2 : (sortKeys l).Pairwise (· ≠ ·) := nodup_sortKeys h
  exact (h1.and h2).imp fun hab => monthLt_of_le_of_ne hab.1 hab.2

theorem mem_monthsPresent {txs : List Txn} {m : String} :
    m ∈ monthsPresent txs ↔ m ∈ txs.map Txn.month := by
  rw [monthsPresent, mem_sortKeys, List.mem_dedup]

theorem nodup_monthsPresent (txs : List Txn) : (monthsPresent txs).Nodup :=
  nodup_sortKeys (List.nodup_dedup _)

theorem pairwise_lt_monthsPresent (txs : List Txn) :
    (monthsPresent txs).Pairwise fun a b => monthLt a b = true :=
  pairwise_lt_sortKeys (List.nodup_dedup _)

theorem mem_catsPresent {txs : List Txn} {c : String} :
    c ∈ catsPresent txs ↔ c ∈ txs.map Txn.category := by
  rw [catsPresent, mem_sortKeys, List.mem_dedup]

/-! ### Sum decomposition facts -/

theorem sum_map_add {β : Type} (l : List β) (f g : β → ℚ) :
    (l.map fun x => f x + g x).sum = (l.map f).sum + (l.map g).sum := by
  induction l with
  | nil => simp
  | cons x xs ih => simp [ih]; ring

theorem sum_ind_zero (L : List String) (p : String → Bool) (a : String) (c : ℚ)
    (h : a ∉ L) : ((L.filter p).map fun m' => if a = m' then c else 0).sum = 0 := by
  induction L with
  | nil => rfl
  | cons x xs ih =>
    have hax : a ≠ x := fun he => h (he ▸ List.mem_cons_self x xs)
    have hxs : a ∉ xs := fun hm => h (List.mem_cons_of_mem x hm)
    rw [List.filter_cons]
    by_cases hp : p x = true
    · rw [if_pos hp, List.map_cons, List.sum_cons, if_neg hax, ih hxs, add_zero]
    · rw [if_neg hp, ih hxs]

theorem sum_ind (L : List String) (p : String → Bool) (a : String) (c : ℚ)
    (hnd : L.Nodup) :
    ((L.filter p).map fun m' => if a = m' then c else 0).sum
      = if a ∈ L ∧ p a = true then c else 0 := by
  induction L with
  | nil => simp
  | cons x xs ih =>
    rcases List.nodup_cons.mp hnd with ⟨hx, hxs⟩
    rw [List.filter_cons]
    by_cases hax : a = x
    · subst hax
      by_cases hp : p a = true
      · rw [if_pos hp, List.map_cons, List.sum_cons, if_pos rfl,
          sum_ind_zero xs p a c hx, add_zero,
          if_pos ⟨List.mem_cons_self a xs, hp⟩]
      · rw [if_neg hp, ih hxs, if_neg (by simp [hp]), if_neg (by simp [hp])]
    · by_cases hp : p x = true
      · rw [if_pos hp, List.map_cons, List.sum_cons, if_neg hax, ih hxs, zero_add]
        by_cases hmem : a ∈ xs ∧ p a = true
        · rw [if_pos hmem, if_pos ⟨List.mem_cons_of_mem x hmem.1, hmem.2⟩]
        · rw [if_neg hmem, if_neg (by
            intro hcon
            exact hmem ⟨(List.mem_cons.mp hcon.1).resolve_left hax, hcon.2⟩)]
      · rw [if_neg hp, ih hxs]
        by_cases hmem : a ∈ xs ∧ p a = true
        · rw [if_pos hmem, if_pos ⟨List.mem_cons_of_mem x hmem.1, hmem.2⟩]
        · rw [if_neg hmem, if_neg (by
            intro hcon
            exact hmem ⟨(List.mem_cons.mp hcon.1).resolve_left hax, hcon.2⟩)]

theorem monthSum_cons (t : Txn) (ts : List Txn) (m : String) :
    monthSum (t :: ts) m = (if t.month = m then t.amount else 0) + monthSum ts m := by
  rw [monthSum, monthSum, List.filter_cons]
  by_cases h : t.month = m
  · rw [if_pos (beq_iff_eq.mpr h), List.map_cons, List.sum_cons, if_pos h]
  · rw [if_neg (by simp [h]), if_neg h, zero_add]

/-- Sum over the month partition: the amounts with month `≤ m` are the
per-month totals of the months `≤ m`. -/
theorem le_filter_sum (txs : List Txn) (ms : List String) (m : String)
    (hnd : ms.Nodup) (hcov : ∀ t ∈ txs, t.month ∈ ms) :
    ((txs.filter fun t => monthLe t.month m).map Txn.amount).sum
      = ((ms.filter fun m' => monthLe m' m).map fun m' => monthSum txs m').sum := by
  induction txs with
  | nil =>
    apply (List.sum_eq_zero ?_).symm
    intro x hx
    rcases List.mem_map.mp hx with ⟨m', _, rfl⟩
    rfl
  | cons t ts ih =>
    have hcov' : ∀ u ∈ ts, u.month ∈ ms := fun u hu => hcov u (List.mem_cons_of_mem t hu)
    have hmem : t.month ∈ ms := hcov t (List.mem_cons_self t ts)
    have hrw : ((ms.filter fun m' => monthLe m' m).map fun m' => monthSum (t :: ts) m')
        = (ms.filter fun m' => monthLe m' m).map
            fun m' => (if t.month = m' then t.amount else 0) + monthSum ts m' := by
      apply List.map_congr_left
      intro m' _
      exact monthSum_cons t ts m'
    rw [hrw, sum_map_add, sum_ind ms _ t.month t.amount hnd, ← ih hcov', List.filter_cons]
    by_cases h : monthLe t.month m = true
    · rw [if_pos h, if_pos ⟨hmem, h⟩, List.map_cons, List.sum_cons]
    · rw [if_neg h, if_neg (by simp [h]), zero_add]

/-! ### Cumulative balance facts -/

theorem cumsum_keys (acc : ℚ) (l : List (String × ℚ)) :
    (cumsum acc l).map Prod.fst = l.map Prod.fst := by
  induction l generalizing acc with
  | nil => rfl
  | cons p rest ih => rw [cumsum, List.map_cons, List.map_cons, ih]

theorem cumsum_value (txs : List Txn) :
    ∀ (ms : List String) (acc : ℚ),
      (ms.Pairwise fun a b => monthLt a b = true) →
      ∀ p ∈ cumsum acc (ms.map fun m => (m, monthSum txs m)),
        p.2 = acc + ((ms.filter fun m' => monthLe m' p.1).map fun m' => monthSum txs m').sum
          ∧ p.1 ∈ ms := by
  intro ms
  induction ms with
  | nil => intro acc _ p hp; simp [cumsum] at hp
  | cons m rest ih =>
    intro acc hpw p hp
    rcases List.pairwise_cons.mp hpw with ⟨hm, hrest⟩
    rw [List.map_cons, cumsum] at hp
    rcases List.mem_cons.mp hp with rfl | hp
    · constructor
      · show acc + monthSum txs m
          = acc + (((m :: rest).filter fun m' => monthLe m' m).map fun m' => monthSum txs m').sum
        rw [List.filter_cons, if_pos (monthLe_refl m),
          List.filter_eq_nil_iff.mpr (fun m' hm' => by
            rw [monthLe_false_of_lt (hm m' hm')]
            exact Bool.false_ne_true),
          List.map_cons, List.map_nil, List.sum_cons, List.sum_nil, add_zero]
      · exact List.mem_cons_self m rest
    · rcases ih (acc + monthSum txs m) hrest p hp with ⟨hval, hmem⟩
      constructor
      · rw [hval, List.filter_cons, if_pos (monthLe_of_lt (hm p.1 hmem)),
          List.map_cons, List.sum_cons]
        ring
      · exact List.mem_cons_of_mem m hmem

/-- Claim C8: for every non-empty transaction set, the Cumulative Balance
table maps each month present in the data to the sum of all transaction
amounts whose month is at most that month, every month present in the data
appears in it, and the months of the output are strictly increasing in the
lexicographic (code-point) order of the `YYYY-MM` strings. -/
theorem c8_cumulative_balance (txs : List Txn) (_hne : txs ≠ []) :
    (∀ p ∈ cumulative_balance txs,
        p.2 = ((txs.filter fun t => monthLe t.month p.1).map Txn.amount).sum)
    ∧ (cumulative_balance txs).Pairwise (fun p q => monthLt p.1 q.1 = true)
    ∧ ∀ t ∈ txs, ∃ p ∈ cumulative_balance txs, p.1 = t.month := by
  have hkeys : (cumulative_balance txs).map Prod.fst = monthsPresent txs := by
    rw [cumulative_balance, cumsum_keys, List.map_map]
    exact List.map_id _
  refine ⟨?_, ?_, ?_⟩
  · intro p hp
    rcases cumsum_value txs (monthsPresent txs) 0
        (pairwise_lt_monthsPresent txs) p hp with ⟨hval, _⟩
    rw [hval, zero_add]
    exact (le_filter_sum txs (monthsPresent txs) p.1 (nodup_monthsPresent txs)
      fun t ht => mem_monthsPresent.mpr (List.mem_map_of_mem Txn.month ht)).symm
  · have hpw := pairwise_lt_monthsPresent txs
    rw [← hkeys] at hpw
    exact List.pairwise_map.mp hpw
  · intro t ht
    have hmem : t.month ∈ (cumulative_balance txs).map Prod.fst := by
      rw [hkeys]
      exact mem_monthsPresent.mpr (List.mem_map_of_mem Txn.month ht)
    rcases List.mem_map.mp hmem with ⟨p, hp, hfst⟩
    exact ⟨p, hp, hfst⟩

/-- Witness for C8 on a concrete two-month transaction set. -/
theorem c8_cumulative_balance_witness :
    ([⟨"2025-02", "Buy", 1⟩, ⟨"2025-01", "Sell", 2⟩] : List Txn) ≠ []
    ∧ ((∀ p ∈ cumulative_balance [⟨"2025-02", "Buy", 1⟩, ⟨"2025-01", "Sell", 2⟩],
          p.2 = ((([⟨"2025-02", "Buy", 1⟩, ⟨"2025-01", "Sell", 2⟩] : List Txn).filter
              fun t => monthLe t.month p.1).map Txn.amount).sum)
        ∧ (cumulative_balance [⟨"2025-02", "Buy", 1⟩, ⟨"2025-01", "Sell", 2⟩]).Pairwise
            (fun p q => monthLt p.1 q.1 = true)
        ∧ ∀ t ∈ ([⟨"2025-02", "Buy", 1⟩, ⟨"2025-01", "Sell", 2⟩] : List Txn),
            ∃ p ∈ cumulative_balance [⟨"2025-02", "Buy", 1⟩, ⟨"2025-01", "Sell", 2⟩],
              p.1 = t.month) :=
  ⟨by decide, c8_cumulative_balance _ (by decide)⟩

/-- Claim C9: the monthly-by-category matrix is dense — for every month
present in the data and every category present anywhere in the data, the
cell (month, category) is present and holds the sum of the matching
amounts, which is 0 when no such transaction exists. -/
theorem c9_monthly_matrix_dense (txs : List Txn) (m c : String)
    (hm : m ∈ txs.map Txn.month) (hc : c ∈ txs.map Txn.category) :
    ∃ row ∈ monthly_by_category txs, row.1 = m ∧
      ∃ cell ∈ row.2, cell.1 = c ∧ cell.2 = cellSum txs m c ∧
        ((txs.filter fun t => t.month == m && t.category == c) = [] → cell.2 = 0) := by
  refine ⟨(m, (catsPresent txs).map fun c' => (c', cellSum txs m c')), ?_, rfl, ?_⟩
  · exact List.mem_map_of_mem _ (mem_monthsPresent.mpr hm)
  · refine ⟨(c, cellSum txs m c), ?_, rfl, rfl, ?_⟩
    · exact List.mem_map_of_mem _ (mem_catsPresent.mpr hc)
    · intro h
      show cellSum txs m c = 0
      rw [cellSum, h]
      rfl

/-- Witness for C9: the (month, category) cell ("2025-02", "Buy") is present
with value 0 although no such transaction exists. -/
theorem c9_monthly_matrix_dense_witness :
    "2025-02" ∈ ([⟨"2025-01", "Buy", 1⟩, ⟨"2025-02", "Fee", 2⟩] : List Txn).map Txn.month
    ∧ "Buy" ∈ ([⟨"2025-01", "Buy", 1⟩, ⟨"2025-02", "Fee", 2⟩] : List Txn).map Txn.category
    ∧ (∃ row ∈ monthly_by_category [⟨"2025-01", "Buy", 1⟩, ⟨"2025-02", "Fee", 2⟩],
        row.1 = "2025-02" ∧
          ∃ cell ∈ row.2, cell.1 = "Buy"
            ∧ cell.2 = cellSum [⟨"2025-01", "Buy", 1⟩, ⟨"2025-02", "Fee", 2⟩] "2025-02" "Buy"
            ∧ ((([⟨"2025-01", "Buy", 1⟩, ⟨"2025-02", "Fee", 2⟩] : List Txn).filter
                  fun t => t.month == "2025-02" && t.category == "Buy") = [] → cell.2 = 0)) :=
  ⟨by decide, by decide, c9_monthly_matrix_dense _ "2025-02" "Buy" (by decide) (by decide)⟩

/-- Claim C10: `identify_transaction_type` returns one of exactly
{Initial Capital, Buy, Sell, Dividend, Fee, Other}; whenever the lower-cased
description contains "initial fund capital" it returns "Initial Capital"
regardless of the amount's sign; and it never returns "Income" or
"Capital". -/
theorem c10_identify_transaction_type (description : String) (amount : ℚ) :
    identify_transaction_type description amount ∈
        (["Initial Capital", "Buy", "Sell", "Dividend", "Fee", "Other"] : List String)
    ∧ (pyContains "initial fund capital" (pyLower description) = true →
        identify_transaction_type description amount = "Initial Capital")
    ∧ identify_transaction_type description amount ≠ "Income"
    ∧ identify_transaction_type description amount ≠ "Capital" := by
  simp only [identify_transaction_type]
  split_ifs with h1 h2 h3 h4 h5
  · exact ⟨by decide, fun _ => rfl, by decide, by decide⟩
  · exact ⟨by decide, fun h => absurd h h1, by decide, by decide⟩
  · exact ⟨by decide, fun h => absurd h h1, by decide, by decide⟩
  · exact ⟨by decide, fun h => absurd h h1, by decide, by decide⟩
  · exact ⟨by decide, fun h => absurd h h1, by decide, by decide⟩
  · exact ⟨by decide, fun h => absurd h h1, by decide, by decide⟩

/-- Witness for C10: a positive-amount description containing
"initial fund capital" is labelled "Initial Capital". -/
theorem c10_identify_transaction_type_witness :
    pyContains "initial fund capital" (pyLower "Initial Fund Capital deployment") = true
    ∧ identify_transaction_type "Initial Fund Capital deployment" 100 = "Initial Capital" :=
  ⟨by decide, (c10_identify_transaction_type "Initial Fund Capital deployment" 100).2.1 (by decide)⟩

/-! ### Claims about the keyword classifier -/

theorem scanRules_eq_find? (d m : String) :
    ∀ rules : List CategoryRow,
      scanRules d m rules = (rules.find? fun rc => rowMatches d m rc.2).map Prod.fst := by
  intro rules
  induction rules with
  | nil => rfl
  | cons rc rest ih =>
    obtain ⟨cat, cell⟩ := rc
    rw [scanRules]
    by_cases h : rowMatches d m cell = true
    · rw [if_pos h,
        @List.find?_cons_of_pos CategoryRow (fun rc => rowMatches d m rc.2) (cat, cell) rest h]
      rfl
    · rw [if_neg h, ih,
        @List.find?_cons_of_neg CategoryRow (fun rc => rowMatches d m rc.2) (cat, cell) rest h]

/-- Claim C2 (amended): the classifier scans the rule table in order and
returns the category of the first entry having some NONEMPTY keyword that
occurs case-insensitively as a substring of the description or of the
merchant name (earlier entries win); if no rule entry matches and the
description contains "income", "deposit" or "payroll", the result is
Income, and otherwise Other. -/
theorem c2_first_match_nonempty_keyword (rules : List CategoryRow)
    (description merchant_name : String) :
    categorize_transaction rules description merchant_name
      = specCategorizeNonempty rules description merchant_name := by
  simp only [categorize_transaction, specCategorizeNonempty, scanRules_eq_find?]
  have hpred : (fun rc : CategoryRow => rowMatches (pyLower description) (pyLower merchant_name) rc.2)
      = fun rc : CategoryRow => (parseKeywords rc.2).any fun k =>
          k != "" && (pyContains k (pyLower description) || pyContains k (pyLower merchant_name)) := rfl
  rw [hpred]
  cases List.find? (fun rc : CategoryRow => (parseKeywords rc.2).any fun k =>
      k != "" && (pyContains k (pyLower description) || pyContains k (pyLower merchant_name))) rules with
  | none => rfl
  | some rc => rfl

/-- Counterexample to claim C2 as stated: on the repository's own seeded
rule table (whose "Other" row has the empty keyword cell), the claim's
algorithm (`specCategorize`, first entry with SOME keyword occurring as a
substring — the empty keyword occurs in everything) yields "Other" for the
description "deposit xyz", while the code skips empty keywords and yields
"Income". -/
theorem c2_counterexample :
    categorize_transaction seededCategoryRows "deposit xyz" "" = "Income"
    ∧ specCategorize seededCategoryRows "deposit xyz" "" = "Other" := by
  constructor
  · decide
  · decide

theorem scanRules_mem {d m cat : String} :
    ∀ {rules : List CategoryRow}, scanRules d m rules = some cat →
      ∃ rc ∈ rules, rc.1 = cat := by
  intro rules
  induction rules with
  | nil => intro h; exact absurd h (by simp [scanRules])
  | cons rc rest ih =>
    obtain ⟨c0, cell⟩ := rc
    intro h
    rw [scanRules] at h
    by_cases hm : rowMatches d m cell = true
    · rw [if_pos hm] at h
      exact ⟨(c0, cell), List.mem_cons_self _ _, (Option.some_inj.mp h).symm ▸ rfl⟩
    · rw [if_neg hm] at h
      rcases ih h with ⟨rc', hmem, hcat⟩
      exact ⟨rc', List.mem_cons_of_mem _ hmem, hcat⟩

/-- Claim C7 (amended): whenever every rule-table entry's category is one of
the seven enumeration values {Buy, Sell, Dividend, Fee, Capital, Income,
Other} — as is the case for the seeded built-in table — the assigned
category is one of the seven values, never empty or outside the
enumeration. -/
theorem c7_category_closed (rules : List CategoryRow) (description merchant_name : String)
    (h : ∀ rc ∈ rules, rc.1 ∈ sevenCategories) :
    categorize_transaction rules description merchant_name ∈ sevenCategories := by
  simp only [categorize_transaction]
  cases hscan : scanRules (pyLower description) (pyLower merchant_name) rules with
  | some cat =>
    rcases scanRules_mem hscan with ⟨rc, hmem, hcat⟩
    exact hcat ▸ h rc hmem
  | none =>
    split_ifs
    · decide
    · decide

/-- Witness for C7 at the seeded rule table. -/
theorem c7_category_closed_witness :
    (∀ rc ∈ seededCategoryRows, rc.1 ∈ sevenCategories)
    ∧ categorize_transaction seededCategoryRows "Purchase of Apple (AAPL)" "Apple" ∈ sevenCategories :=
  ⟨by decide, c7_category_closed seededCategoryRows "Purchase of Apple (AAPL)" "Apple" (by decide)⟩

/-- Counterexample to claim C7 as stated: the classifier returns rule-table
categories verbatim, so an externally configured rule row can put the
assigned category outside the seven-value enumeration. -/
theorem c7_counterexample :
    categorize_transaction [("Banana", "x")] "x" "" = "Banana"
    ∧ "Banana" ∉ sevenCategories := by
  constructor
  · decide
  · decide

/-! ### Claims about the batch scheduler -/

theorem chunksAux_eq {α : Type} (b : Nat) :
    ∀ (xs : List α) (i : Nat), chunksAux b xs i = (xs.take i, batchesOf b (xs.drop i)) := by
  intro xs
  induction xs with
  | nil => intro i; simp [chunksAux, batchesOf]
  | cons x xs ih =>
    intro i
    cases i with
    | zero =>
      show ([], (x :: (chunksAux b xs (b - 1)).1) :: (chunksAux b xs (b - 1)).2) = _
      rfl
    | succ i =>
      show (x :: (chunksAux b xs i).1, (chunksAux b xs i).2) = _
      rw [ih i]
      rfl

theorem batchesOf_cons {α : Type} (b : Nat) (x : α) (xs : List α) :
    batchesOf b (x :: xs) = (x :: xs.take (b - 1)) :: batchesOf b (xs.drop (b - 1)) := by
  show ((x :: (chunksAux b xs (b - 1)).1) :: (chunksAux b xs (b - 1)).2) = _
  rw [chunksAux_eq]

theorem batchesOf_flatten_bounded {α : Type} (b : Nat) :
    ∀ (n : Nat) (l : List α), l.length ≤ n → (batchesOf b l).flatten = l := by
  intro n
  induction n with
  | zero =>
    intro l h
    have : l = [] := List.eq_nil_of_length_eq_zero (by omega)
    subst this
    rfl
  | succ n ih =>
    intro l h
    cases l with
    | nil => rfl
    | cons x xs =>
      rw [batchesOf_cons, List.flatten_cons,
        ih (xs.drop (b - 1)) (by rw [List.length_drop]; simp at h; omega),
        List.cons_append, List.take_append_drop]

theorem batchesOf_sizes_bounded {α : Type} (b : Nat) (hb : 0 < b) :
    ∀ (n : Nat) (l : List α), l.length ≤ n →
      ∀ g ∈ batchesOf b l, g ≠ [] ∧ g.length ≤ b := by
  intro n
  induction n with
  | zero =>
    intro l h
    have : l = [] := List.eq_nil_of_length_eq_zero (by omega)
    subst this
    intro g hg
    exact absurd hg (by simp [batchesOf])
  | succ n ih =>
    intro l h g hg
    cases l with
    | nil => exact absurd hg (by simp [batchesOf])
    | cons x xs =>
      rw [batchesOf_cons] at hg
      rcases List.mem_cons.mp hg with rfl | hg
      · refine ⟨by simp, ?_⟩
        rw [List.length_cons, List.length_take]
        rcases Nat.le_total (b - 1) xs.length with hle | hle
        · rw [Nat.min_eq_left hle]; omega
        · rw [Nat.min_eq_right hle]
          simp at h
          omega
      · exact ih (xs.drop (b - 1)) (by rw [List.length_drop]; simp at h; omega) g hg

theorem batchesOf_ne_nil {α : Type} (b : Nat) {l : List α} (h : l ≠ []) :
    batchesOf b l ≠ [] := by
  cases l with
  | nil => exact absurd rfl h
  | cons x xs => rw [batchesOf_cons]; simp

theorem batchesOf_dropLast_full {α : Type} (b : Nat) (hb : 0 < b) :
    ∀ (n : Nat) (l : List α), l.length ≤ n →
      ∀ g ∈ (batchesOf b l).dropLast, g.length = b := by
  intro n
  induction n with
  | zero =>
    intro l h
    have : l = [] := List.eq_nil_of_length_eq_zero (by omega)
    subst this
    intro g hg
    exact absurd hg (by simp [batchesOf])
  | succ n ih =>
    intro l h g hg
    cases l with
    | nil => exact absurd hg (by simp [batchesOf])
    | cons x xs =>
      rw [batchesOf_cons] at hg
      by_cases hrest : batchesOf b (xs.drop (b - 1)) = []
      · rw [hrest] at hg
        simp at hg
      · have hxs : xs.drop (b - 1) ≠ [] := by
          intro hcon
          exact hrest (by rw [hcon]; rfl)
        have hlen : b - 1 < xs.length := by
          by_contra hcon
          exact hxs (List.drop_eq_nil_of_le (by omega))
        rw [List.dropLast_cons_of_ne_nil hrest] at hg
        rcases List.mem_cons.mp hg with rfl | hg
        · rw [List.length_cons, List.length_take, Nat.min_eq_left (by omega)]
          omega
        · exact ih (xs.drop (b - 1)) (by rw [List.length_drop]; simp at h; omega) g hg

theorem batchesOf_count_bounded {α : Type} (b : Nat) (hb : 0 < b) :
    ∀ (n : Nat) (l : List α), l.length ≤ n →
      (batchesOf b l).length = (l.length + b - 1) / b := by
  intro n
  induction n with
  | zero =>
    intro l h
    have : l = [] := List.eq_nil_of_length_eq_zero (by omega)
    subst this
    simp only [batchesOf, List.length_nil, Nat.zero_add]
    exact (Nat.div_eq_of_lt (by omega)).symm
  | succ n ih =>
    intro l h
    cases l with
    | nil =>
      simp only [batchesOf, List.length_nil, Nat.zero_add]
      exact (Nat.div_eq_of_lt (by omega)).symm
    | cons x xs =>
      rw [batchesOf_cons, List.length_cons,
        ih (xs.drop (b - 1)) (by rw [List.length_drop]; simp at h; omega),
        List.length_drop, List.length_cons,
        show xs.length + 1 + b - 1 = xs.length + b from by omega,
        Nat.add_div_right _ hb]
      rcases Nat.le_total (b - 1) xs.length with hle | hle
      · rw [show xs.length - (b - 1) + b - 1 = xs.length from by omega]
      · rw [show xs.length - (b - 1) = 0 from by omega]
        rw [Nat.div_eq_of_lt (by omega), Nat.div_eq_of_lt (by omega)]

theorem schedLoop_eq_intersperse {α : Type} :
    ∀ (gs : List (List α)) (i total : Nat), total = i + gs.length →
      schedLoop total i gs
        = List.intersperse WriteEvent.sleep (gs.map WriteEvent.write) := by
  intro gs
  induction gs with
  | nil => intro i total _; rfl
  | cons g gs ih =>
    intro i total htot
    cases gs with
    | nil =>
      show WriteEvent.write g ::
          (if i < total - 1 then WriteEvent.sleep :: schedLoop total (i + 1) []
           else schedLoop total (i + 1) []) = _
      rw [if_neg (by simp at htot; omega)]
      rfl
    | cons g2 gs2 =>
      show WriteEvent.write g ::
          (if i < total - 1 then WriteEvent.sleep :: schedLoop total (i + 1) (g2 :: gs2)
           else schedLoop total (i + 1) (g2 :: gs2)) = _
      rw [if_pos (by simp at htot; omega), ih (i + 1) total (by simp at htot ⊢; omega)]
      rfl

/-- Claim C6: for every list of logical writes and every positive batch
size `b`, the batch loop partitions the list into consecutive groups whose
concatenation is the original list, with every group except possibly the
last of size exactly `b` (every group nonempty and of size at most `b`,
and exactly ⌈n/b⌉ groups), and its event trace writes the groups in order
with one pacing sleep between consecutive groups — i.e. a delay after
every group except the last. -/
theorem c6_batch_partition_and_pacing {α : Type} (l : List α) (b : Nat) (hb : 0 < b) :
    (batchesOf b l).flatten = l
    ∧ (∀ g ∈ (batchesOf b l).dropLast, g.length = b)
    ∧ (∀ g ∈ batchesOf b l, g ≠ [] ∧ g.length ≤ b)
    ∧ (batchesOf b l).length = (l.length + b - 1) / b
    ∧ schedTrace b l = List.intersperse WriteEvent.sleep ((batchesOf b l).map WriteEvent.write) :=
  ⟨batchesOf_flatten_bounded b l.length l le_rfl,
   batchesOf_dropLast_full b hb l.length l le_rfl,
   batchesOf_sizes_bounded b hb l.length l le_rfl,
   batchesOf_count_bounded b hb l.length l le_rfl,
   schedLoop_eq_intersperse (batchesOf b l) 0 ((batchesOf b l).length) (by omega)⟩

/-- Witness for C6: 23 writes with batch size 10 give exactly the three
groups of sizes 10, 10, 3, paced after the first two groups only. -/
theorem c6_batch_partition_and_pacing_witness :
    0 < 10
    ∧ (batchesOf 10 (List.range 23)).map List.length = [10, 10, 3]
    ∧ ((batchesOf 10 (List.range 23)).flatten = List.range 23
       ∧ (∀ g ∈ (batchesOf 10 (List.range 23)).dropLast, g.length = 10)
       ∧ (∀ g ∈ batchesOf 10 (List.range 23), g ≠ [] ∧ g.length ≤ 10)
       ∧ (batchesOf 10 (List.range 23)).length = ((List.range 23).length + 10 - 1) / 10
       ∧ schedTrace 10 (List.range 23)
           = List.intersperse WriteEvent.sleep
               ((batchesOf 10 (List.range 23)).map WriteEvent.write)) :=
  ⟨by decide, by decide, c6_batch_partition_and_pacing (List.range 23) 10 (by decide)⟩

/-- Claim C4 (amended): in `import_with_batching`, each group's write is
guarded by `try/except`, so the groups actually applied are exactly the
non-failing groups, in order — a failed group is skipped and never aborts
the remaining groups.  (In `update_dashboard`'s batched path, by contrast,
a failed group aborts the remaining groups; see the counterexample.) -/
theorem c4_failed_group_skipped {α : Type} (fails : Nat → Bool) (gs : List (List α)) (i : Nat) :
    importBatchesApply fails i gs
      = ((gs.enumFrom i).filter fun p => !fails p.1).map Prod.snd := by
  induction gs generalizing i with
  | nil => rfl
  | cons g gs ih =>
    show (if fails i then importBatchesApply fails (i + 1) gs
          else g :: importBatchesApply fails (i + 1) gs) = _
    rw [List.enumFrom_cons, List.filter_cons]
    cases hf : fails i with
    | true => rw [if_pos rfl, ih, if_neg (by simp [hf])]
    | false =>
      rw [if_neg (by simp), ih, if_pos (by simp [hf]), List.map_cons]

/-- Counterexample to claim C4 as stated for the `update_dashboard` batched
write loop: when the first of two groups fails, the second (non-failing)
group is never applied — the failure aborts the remaining groups. -/
theorem c4_counterexample :
    dashboardBatchesApply (fun j => j == 0) 0 [[1], [2]] = ([] : List (List Nat))
    ∧ (fun j => j == 0) 1 = false := by
  constructor
  · decide
  · decide

/-! ### Claims about the CSV import -/

theorem import_csv_fst (rules : List CategoryRow) (fmtDate : String → String)
    (existing : List String) (now : Nat) (records : List RawRecord) :
    (import_csv_transactions rules fmtDate existing now records).1
      = (importLoop rules fmtDate existing now 0 records).1 := by
  unfold import_csv_transactions
  rcases importLoop rules fmtDate existing now 0 records with ⟨rows, res⟩
  cases res with
  | none => rfl
  | some n => rfl

theorem importLoop_malformed_abort (rules : List CategoryRow) (fmtDate : String → String)
    (existing : List String) (now : Nat) :
    ∀ (pre : List RawRecord) (n : Nat) (bad : RawRecord) (rest : List RawRecord),
      (∀ r ∈ pre, (amountOf r).isSome) →
      bad.txidField.getD "" ∉ existing →
      amountOf bad = none →
      importLoop rules fmtDate existing now n (pre ++ bad :: rest)
        = ((importLoop rules fmtDate existing now n pre).1, none) := by
  intro pre
  induction pre with
  | nil =>
    intro n bad rest _ hnotin hbad
    show importLoop rules fmtDate existing now n (bad :: rest) = _
    simp only [importLoop, if_neg hnotin, hbad]
  | cons r pre ih =>
    intro n bad rest hpre hnotin hbad
    have hr : (amountOf r).isSome := hpre r (List.mem_cons_self r pre)
    have hpre' : ∀ x ∈ pre, (amountOf x).isSome :=
      fun x hx => hpre x (List.mem_cons_of_mem r hx)
    show importLoop rules fmtDate existing now n (r :: (pre ++ bad :: rest)) = _
    by_cases htid : r.txidField.getD "" ∈ existing
    · simp only [importLoop, if_pos htid]
      exact ih n bad rest hpre' hnotin hbad
    · cases ha : amountOf r with
      | none => rw [ha] at hr; exact absurd hr (by simp)
      | some a =>
        simp only [importLoop, if_neg htid, ha]
        rw [ih (n + 1) bad rest hpre' hnotin hbad]

/-- Claim C1 (amended): a record whose Amount fails to parse even after
stripping '$' and ',' makes the amount `ValueError` escape the per-record
code; the outer `except` catches it, so the import returns 0 and stops —
the records after the malformed one are never processed (the rows appended
before it remain), and the malformed amount is never defaulted to zero. -/
theorem c1_malformed_amount_aborts (rules : List CategoryRow) (fmtDate : String → String)
    (existing : List String) (now : Nat) (pre : List RawRecord) (bad : RawRecord)
    (rest : List RawRecord)
    (hpre : ∀ r ∈ pre, (amountOf r).isSome)
    (hnotin : bad.txidField.getD "" ∉ existing)
    (hbad : amountOf bad = none) :
    import_csv_transactions rules fmtDate existing now (pre ++ bad :: rest)
      = ((import_csv_transactions rules fmtDate existing now pre).1, 0) := by
  rw [import_csv_fst]
  unfold import_csv_transactions
  rw [importLoop_malformed_abort rules fmtDate existing now pre 0 bad rest hpre hnotin hbad]

/-- Witness for C1 with an unparseable amount "abc" at the head. -/
theorem c1_malformed_amount_aborts_witness :
    (∀ r ∈ ([] : List RawRecord), (amountOf r).isSome)
    ∧ (⟨some "2025-01-15", some "x", some "abc", none, none, some "t1", none⟩ :
        RawRecord).txidField.getD "" ∉ ([] : List String)
    ∧ amountOf ⟨some "2025-01-15", some "x", some "abc", none, none, some "t1", none⟩ = none
    ∧ import_csv_transactions [] (fun s => s) [] 0
        ([] ++ (⟨some "2025-01-15", some "x", some "abc", none, none, some "t1", none⟩ : RawRecord)
          :: [⟨some "2025-01-16", some "y", some "5", none, none, some "g1", none⟩])
      = ((import_csv_transactions [] (fun s => s) [] 0 []).1, 0) :=
  ⟨by simp, by decide, by decide,
   c1_malformed_amount_aborts [] (fun s => s) [] 0 [] _ _ (by simp) (by decide) (by decide)⟩

/-- Counterexample to claim C1 as stated: a batch holding a malformed-amount
record followed by a perfectly valid, non-duplicate record yields no
appended rows at all and a returned count of 0 — the run does not continue
with the remaining records, it aborts. -/
theorem c1_counterexample :
    import_csv_transactions [] (fun s => s) [] 0
        [⟨some "2025-01-15", some "x", some "abc", none, none, some "t1", none⟩,
         ⟨some "2025-01-16", some "y", some "5", none, none, some "g1", none⟩]
      = ([], 0)
    ∧ (amountOf ⟨some "2025-01-16", some "y", some "5", none, none, some "g1", none⟩).isSome
        = true := by
  constructor
  · decide
  · decide

theorem importLoop_all_skip (rules : List CategoryRow) (fmtDate : String → String)
    (now : Nat) :
    ∀ (records : List RawRecord) (existing : List String) (n : Nat),
      (∀ r ∈ records, r.txidField.getD "" ∈ existing) →
      importLoop rules fmtDate existing now n records = ([], some n) := by
  intro records
  induction records with
  | nil => intro existing n _; rfl
  | cons r rs ih =>
    intro existing n h
    rw [importLoop, if_pos (h r (List.mem_cons_self r rs))]
    exact ih existing n fun x hx => h x (List.mem_cons_of_mem r hx)

theorem import_csv_of_all_skip (rules : List CategoryRow) (fmtDate : String → String)
    (existing : List String) (now : Nat) (records : List RawRecord)
    (h : ∀ r ∈ records, r.txidField.getD "" ∈ existing) :
    import_csv_transactions rules fmtDate existing now records = ([], 0) := by
  unfold import_csv_transactions
  rw [importLoop_all_skip rules fmtDate now records existing 0 h]

theorem importLoop_appended_ids (rules : List CategoryRow) (fmtDate : String → String)
    (now : Nat) :
    ∀ (records : List RawRecord) (existing : List String) (n : Nat),
      (∀ r ∈ records, r.txidField.getD "" ≠ "") →
      (∀ r ∈ records, (amountOf r).isSome) →
      ∀ r ∈ records,
        r.txidField.getD "" ∈ existing
        ∨ r.txidField.getD ""
            ∈ (importLoop rules fmtDate existing now n records).1.map SheetRow.txid := by
  intro records
  induction records with
  | nil => intro existing n _ _ r hr; exact absurd hr (by simp)
  | cons r0 rs ih =>
    intro existing n hid hamt r hr
    have hid' : ∀ x ∈ rs, x.txidField.getD "" ≠ "" :=
      fun x hx => hid x (List.mem_cons_of_mem r0 hx)
    have hamt' : ∀ x ∈ rs, (amountOf x).isSome :=
      fun x hx => hamt x (List.mem_cons_of_mem r0 hx)
    by_cases htid : r0.txidField.getD "" ∈ existing
    · simp only [importLoop, if_pos htid]
      rcases List.mem_cons.mp hr with rfl | hr'
      · exact Or.inl htid
      · exact ih existing n hid' hamt' r hr'
    · cases ha : amountOf r0 with
      | none =>
        have := hamt r0 (List.mem_cons_self r0 rs)
        rw [ha] at this
        exact absurd this (by simp)
      | some a =>
        simp only [importLoop, if_neg htid, ha]
        rcases List.mem_cons.mp hr with rfl | hr'
        · refine Or.inr ?_
          rw [List.map_cons]
          refine List.mem_cons.mpr (Or.inl ?_)
          show r.txidField.getD ""
              = (if r.txidField.getD "" = "" then synthId n now else r.txidField.getD "")
          rw [if_neg (hid r (List.mem_cons_self r rs))]
        · rcases ih existing (n + 1) hid' hamt' r hr' with hmem | hmem
          · exact Or.inl hmem
          · refine Or.inr ?_
            rw [List.map_cons]
            exact List.mem_cons.mpr (Or.inr hmem)

/-- Claim C3 (amended): the deduplication output is exactly the subset of
incoming records whose id is not in the existing set, and re-importing a
batch against the persisted set produced by the first import appends zero
rows — provided every record of the batch carries a nonempty TransactionID
(and parseable amounts, so the first import completes).  Records with an
absent or empty TransactionID are re-imported; see the counterexample. -/
theorem c3_reimport_idempotent (rules : List CategoryRow) (fmtDate : String → String)
    (existing : List String) (now now2 : Nat) (records : List RawRecord)
    (hid : ∀ r ∈ records, r.txidField.getD "" ≠ "")
    (hamt : ∀ r ∈ records, (amountOf r).isSome) :
    (∀ t : RawRecord, t ∈ filterNewTransactions existing records
        ↔ t ∈ records ∧ t.txidField.getD "" ∉ existing)
    ∧ import_csv_transactions rules fmtDate
        (existing
          ++ (import_csv_transactions rules fmtDate existing now records).1.map SheetRow.txid)
        now2 records
      = ([], 0) := by
  constructor
  · intro t
    simp [filterNewTransactions, List.mem_filter]
  · have hcov : ∀ r ∈ records,
        r.txidField.getD ""
          ∈ existing
            ++ (import_csv_transactions rules fmtDate existing now records).1.map SheetRow.txid := by
      intro r hr
      rw [import_csv_fst]
      rcases importLoop_appended_ids rules fmtDate now records existing 0 hid hamt r hr with h | h
      · exact List.mem_append.mpr (Or.inl h)
      · exact List.mem_append.mpr (Or.inr h)
    exact import_csv_of_all_skip rules fmtDate _ now2 records hcov

/-- Witness for C3 on a one-record batch with a real id. -/
theorem c3_reimport_idempotent_witness :
    (∀ r ∈ [(⟨some "2025-01-15", some "d", some "5", none, none, some "g1", none⟩ : RawRecord)],
        r.txidField.getD "" ≠ "")
    ∧ (∀ r ∈ [(⟨some "2025-01-15", some "d", some "5", none, none, some "g1", none⟩ : RawRecord)],
        (amountOf r).isSome)
    ∧ ((∀ t : RawRecord,
          t ∈ filterNewTransactions []
              [⟨some "2025-01-15", some "d", some "5", none, none, some "g1", none⟩]
            ↔ t ∈ [(⟨some "2025-01-15", some "d", some "5", none, none, some "g1", none⟩ : RawRecord)]
                ∧ t.txidField.getD "" ∉ ([] : List String))
        ∧ import_csv_transactions [] (fun s => s)
            (([] : List String)
              ++ (import_csv_transactions [] (fun s => s) [] 7
                    [⟨some "2025-01-15", some "d", some "5", none, none, some "g1", none⟩]).1.map
                  SheetRow.txid)
            8 [⟨some "2025-01-15", some "d", some "5", none, none, some "g1", none⟩]
          = ([], 0)) :=
  ⟨by decide, by decide,
   c3_reimport_idempotent [] (fun s => s) [] 7 8 _ (by decide) (by decide)⟩

/-- Counterexample to claim C3 as stated: a record whose TransactionID is
present but empty is appended under a synthesized id on the first import,
and the second import against the resulting persisted set appends it again
(count 1, not 0), because the dedup check compares the raw empty id. -/
theorem c3_counterexample :
    (import_csv_transactions [] (fun s => s)
        ((import_csv_transactions [] (fun s => s) [] 5
            [⟨none, some "d", some "5", none, none, some "", none⟩]).1.map SheetRow.txid)
        6 [⟨none, some "d", some "5", none, none, some "", none⟩]).2 = 1 := by
  decide

theorem importLoop_synth_ids (rules : List CategoryRow) (fmtDate : String → String)
    (existing : List String) (now : Nat) :
    ∀ (records : List RawRecord) (n : Nat),
      (∀ r ∈ records, r.txidField.getD "" = "") →
      ∃ k, (importLoop rules fmtDate existing now n records).1.map SheetRow.txid
        = (List.range' n k).map fun c => synthId c now := by
  intro records
  induction records with
  | nil => intro n _; exact ⟨0, rfl⟩
  | cons r rs ih =>
    intro n h
    have hr : r.txidField.getD "" = "" := h r (List.mem_cons_self r rs)
    have h' : ∀ x ∈ rs, x.txidField.getD "" = "" :=
      fun x hx => h x (List.mem_cons_of_mem r hx)
    by_cases htid : r.txidField.getD "" ∈ existing
    · simp only [importLoop, if_pos htid]
      exact ih n h'
    · cases ha : amountOf r with
      | none =>
        simp only [importLoop, if_neg htid, ha]
        exact ⟨0, rfl⟩
      | some a =>
        simp only [importLoop, if_neg htid, ha]
        rcases ih (n + 1) h' with ⟨k, hk⟩
        refine ⟨k + 1, ?_⟩
        rw [List.map_cons, hk, List.range'_succ, List.map_cons]
        congr 1
        show (if r.txidField.getD "" = "" then synthId n now else r.txidField.getD "")
            = synthId n now
        rw [if_pos hr]

/-- Claim C5 (amended): in `FinancialTracker.import_csv_transactions` the
synthesized ids use the per-run appended-row counter, so in a batch of
records whose TransactionID is absent or empty, every appended row gets an
id of the form `csv_<sequence>_<ingestion-epoch-seconds>` and any two
distinct rows get distinct ids.  (In `import_with_batching` the sequence
is the batch index and only an absent — not empty — TransactionID is
synthesized, so ids collide; see the counterexample.) -/
theorem c5_synthesized_ids_distinct (rules : List CategoryRow) (fmtDate : String → String)
    (existing : List String) (now : Nat) (records : List RawRecord)
    (h : ∀ r ∈ records, r.txidField.getD "" = "") :
    ((import_csv_transactions rules fmtDate existing now records).1.map SheetRow.txid).Nodup
    ∧ ∀ row ∈ (import_csv_transactions rules fmtDate existing now records).1,
        ∃ c, row.txid = synthId c now := by
  rw [import_csv_fst]
  rcases importLoop_synth_ids rules fmtDate existing now records 0 h with ⟨k, hk⟩
  constructor
  · rw [hk]
    exact (List.nodup_range' 0 k).map fun a b hab => synthId_injective hab
  · intro row hrow
    have hmem : row.txid ∈ (importLoop rules fmtDate existing now 0 records).1.map SheetRow.txid :=
      List.mem_map_of_mem SheetRow.txid hrow
    rw [hk] at hmem
    rcases List.mem_map.mp hmem with ⟨c, _, hc⟩
    exact ⟨c, hc.symm⟩

/-- Witness for C5 on a two-record batch with absent and empty ids. -/
theorem c5_synthesized_ids_distinct_witness :
    (∀ r ∈ [(⟨none, some "a", some "1", none, none, none, none⟩ : RawRecord),
            ⟨none, some "b", some "2", none, none, some "", none⟩],
        r.txidField.getD "" = "")
    ∧ (((import_csv_transactions [] (fun s => s) [] 9
          [⟨none, some "a", some "1", none, none, none, none⟩,
           ⟨none, some "b", some "2", none, none, some "", none⟩]).1.map SheetRow.txid).Nodup
        ∧ ∀ row ∈ (import_csv_transactions [] (fun s => s) [] 9
            [⟨none, some "a", some "1", none, none, none, none⟩,
             ⟨none, some "b", some "2", none, none, some "", none⟩]).1,
            ∃ c, row.txid = synthId c 9) :=
  ⟨by decide, c5_synthesized_ids_distinct [] (fun s => s) [] 9 _ (by decide)⟩

/-- Counterexample to claim C5 as stated: in `import_with_batching`
(line 106) the synthesized id uses the batch index and `dict.get`'s
default, so two distinct records with an absent TransactionID in the same
batch at the same epoch second receive the identical id `csv_0_7`. -/
theorem c5_counterexample :
    ((⟨none, some "a", some "1", none, none, none, none⟩ : RawRecord)
        ≠ ⟨none, some "b", some "2", none, none, none, none⟩)
    ∧ (buildBatchRows [] (fun s => s) 0 7
          [⟨none, some "a", some "1", none, none, none, none⟩,
           ⟨none, some "b", some "2", none, none, none, none⟩]).map
        (List.map SheetRow.txid)
      = some ["csv_0_7", "csv_0_7"] := by
  constructor
  · decide
  · decide
